import Mathlib

/-!
Shallow embedding of the session-bootstrap hook
(`src/hooks/bundled/session-bootstrap/handler.ts`).

Modelling choices:
* Strings are Lean `String` (a list of `Char`); JavaScript string
  operations are modelled on the underlying character list
  (`s.slice(0, n)` is `jsSlice`, `Array.prototype.sort()` on strings is
  a stable lexicographic sort by code point, `join("\n")` is `joinParts`).
* The file system and the external resolver collaborators are inputs:
  a read that would throw in JavaScript is `none` / `Except.error`.
* Every file-system call and every log call is recorded as a
  `HookEffect`, so frame properties ("no file access, no log record")
  are statements about the returned effect trace.
-/

/-- Joined path, modelling `path.join(a, b)` for the plain relative
segments this hook uses. -/
def pathJoin (a b : String) : String := a ++ "/" ++ b

/-- JavaScript `s.slice(0, n)`: the first `n` characters of `s`. -/
def jsSlice (s : String) (n : Nat) : String := String.mk (s.data.take n)

/-- Lexicographic comparison of character lists by code point, the order
JavaScript's default `Array.prototype.sort()` uses on strings. -/
def charListLe : List Char → List Char → Bool
  | [], _ => true
  | _ :: _, [] => false
  | a :: as, b :: bs =>
    if a.toNat < b.toNat then true
    else if b.toNat < a.toNat then false
    else charListLe as bs

/-- `a ≤ b` in JavaScript string order. -/
def strLe (a b : String) : Bool := charListLe a.data b.data

/-- Insert into a sorted list, keeping `strLe` order (stable). -/
def insertSorted (a : String) : List String → List String
  | [] => [a]
  | b :: l => if strLe a b then a :: b :: l else b :: insertSorted a l

/-- Stable ascending sort by `strLe`, modelling `Array.prototype.sort()`
on an array of strings. -/
def sortStrings (l : List String) : List String := l.foldr insertSorted []

/-- JavaScript `s.endsWith(suf)`. -/
def strEndsWith (s suf : String) : Bool := suf.data.isSuffixOf s.data

/-- The regular expression test `f.match(/^\d{4}-\d{2}-\d{2}/)`: four
digits, dash, two digits, dash, two digits at the start of the name. -/
def matchesDatePattern (f : String) : Bool :=
  match f.data with
  | c0 :: c1 :: c2 :: c3 :: c4 :: c5 :: c6 :: c7 :: c8 :: c9 :: _ =>
    c0.isDigit && c1.isDigit && c2.isDigit && c3.isDigit && (c4 == '-') &&
    c5.isDigit && c6.isDigit && (c7 == '-') && c8.isDigit && c9.isDigit
  | _ => false

/-- The filter in `getRecentMemories`:
`f.endsWith(".md") && f.match(/^\d{4}-\d{2}-\d{2}/)`. -/
def keepFile (f : String) : Bool := strEndsWith f ".md" && matchesDatePattern f

/-- The selection in `getRecentMemories`:
`files.filter(keep).sort().reverse().slice(0, count)`. -/
def selectRecentFiles (files : List String) (count : Nat) : List String :=
  ((sortStrings (files.filter keepFile)).reverse).take count

/-- JavaScript `file.split("-")[0]`: the characters before the first
dash (the whole string when there is no dash). -/
def dateOfFilename (f : String) : String :=
  String.mk (f.data.takeWhile (fun c => c != '-'))

deriving instance DecidableEq for Except

/-- One record produced by `getRecentMemories`:
`{ date, content, filename }`. -/
structure MemoryEntry where
  date : String
  content : String
  filename : String
deriving Repr, DecidableEq

/-- The file system as seen by the hook: `readdir` and `readFile`,
where `none` models the call throwing. -/
structure FileSys where
  readdir : String → Option (List String)
  readFile : String → Option String

/-- One observable side effect of a handler run: a file-system call or
a log record. -/
inductive HookEffect where
  | fsReaddir (p : String)
  | fsReadFile (p : String)
  | logDebug (msg : String)
  | logInfo (msg : String)
  | logError (msg : String)
deriving Repr, DecidableEq

/-- The read loop of `getRecentMemories`: read each selected file in
order; the first failing read aborts the loop (the surrounding
`try` turns that into an empty result). Returns the entries (or `none`
on failure) together with the reads performed. -/
def readMemoriesLoop (fs : FileSys) (dir : String) :
    List String → Option (List MemoryEntry) × List HookEffect
  | [] => (some [], [])
  | f :: rest =>
    let p := pathJoin dir f
    match fs.readFile p with
    | none => (none, [HookEffect.fsReadFile p])
    | some content =>
      let r := readMemoriesLoop fs dir rest
      (r.1.map (fun ms => { date := dateOfFilename f, content := content,
                            filename := f } :: ms),
       HookEffect.fsReadFile p :: r.2)

/-- `getRecentMemories(memoryDir, count)`: list the directory, keep the
dated `.md` names, sort descending, take `count`, read each; any error
during listing or reading yields `[]`. -/
def getRecentMemories (fs : FileSys) (memoryDir : String) (count : Nat) :
    List MemoryEntry × List HookEffect :=
  match fs.readdir memoryDir with
  | none => ([], [HookEffect.fsReaddir memoryDir])
  | some files =>
    let r := readMemoriesLoop fs memoryDir (selectRecentFiles files count)
    (r.1.getD [], HookEffect.fsReaddir memoryDir :: r.2)

/-- `getUserProfile(workspaceDir)`: read
`<workspace>/memory/jeeves-profile.md`, `none` on failure. -/
def getUserProfile (fs : FileSys) (workspaceDir : String) :
    Option String × List HookEffect :=
  let p := pathJoin (pathJoin workspaceDir "memory") "jeeves-profile.md"
  (fs.readFile p, [HookEffect.fsReadFile p])

/-- `getActiveContext(workspaceDir)`: read
`<workspace>/memory/active-context.md`, `none` on failure. -/
def getActiveContext (fs : FileSys) (workspaceDir : String) :
    Option String × List HookEffect :=
  let p := pathJoin (pathJoin workspaceDir "memory") "active-context.md"
  (fs.readFile p, [HookEffect.fsReadFile p])

/-- JavaScript truthiness of a nullable string: `null`/`undefined` and
`""` are falsy. -/
def strTruthy : Option String → Bool
  | none => false
  | some s => s != ""

/-- Per-entry part pushed by the loop over recent memories:
`` `### ${mem.filename}` ``, `mem.content.slice(0, 500)`, `""`. -/
def entryParts (m : MemoryEntry) : List String :=
  ["### " ++ m.filename, jsSlice m.content 500, ""]

/-- The profile section of the assembled parts (spec 4.4: heading,
content truncated to 1000 characters, blank separator, present only for
a truthy profile). -/
def profileSection (up : Option String) : List String :=
  if strTruthy up then ["## User Profile (Jeeves)", jsSlice (up.getD "") 1000, ""]
  else []

/-- The active-context section of the assembled parts. -/
def activeSection (ac : Option String) : List String :=
  if strTruthy ac then ["## Active Context", jsSlice (ac.getD "") 1000, ""]
  else []

/-- The recent-memories section of the assembled parts. -/
def recentSection (mems : List MemoryEntry) : List String :=
  if mems.length > 0 then "## Recent Conversations" :: mems.flatMap entryParts
  else []

/-- The `contextParts` array built by `bootstrapSession` (the three
`if` blocks pushing parts in order). -/
def buildContextParts (userProfile activeContext : Option String)
    (recentMemories : List MemoryEntry) : List String :=
  let p1 := if strTruthy userProfile then
      ["## User Profile (Jeeves)", jsSlice (userProfile.getD "") 1000, ""]
    else []
  let p2 := if strTruthy activeContext then
      p1 ++ ["## Active Context", jsSlice (activeContext.getD "") 1000, ""]
    else p1
  if recentMemories.length > 0 then
    p2 ++ ("## Recent Conversations" :: recentMemories.flatMap entryParts)
  else p2

/-- JavaScript `parts.join("\n")`. -/
def joinParts : List String → String
  | [] => ""
  | [x] => x
  | x :: xs => x ++ "\n" ++ joinParts xs

/-- `contextParts.join("\n")`: the full assembled memory context. -/
def buildContext (up ac : Option String) (mems : List MemoryEntry) : String :=
  joinParts (buildContextParts up ac mems)

/-- The injected `OpenClawConfig`; its contents are opaque to this hook,
which only passes it to `resolveAgentWorkspaceDir`. -/
structure OpenClawConfig where
  tag : Nat := 0
deriving Repr, DecidableEq

/-- The event's mutable `context` object: the keys this hook reads
(`cfg`) and writes (`memoryContext`, `hasMemory`), plus any other
entries, which the hook never touches. -/
structure HookCtx where
  cfg : Option OpenClawConfig := none
  memoryContext : Option String := none
  hasMemory : Option Bool := none
  extra : List (String × String) := []
deriving Repr, DecidableEq

/-- The event delivered to the handler; `context = none` models a
`null`/`undefined` context attribute. -/
structure HookEvent where
  type : String
  action : String
  sessionKey : String
  context : Option HookCtx
deriving Repr, DecidableEq

/-- The external collaborators: the file system and the three
resolvers; `Except.error` models a resolver throwing. `resolveStateDir`
stands for `resolveStateDir(process.env, os.homedir)`. -/
structure HookEnv where
  fs : FileSys
  resolveAgentIdFromSessionKey : String → Except String String
  resolveAgentWorkspaceDir : OpenClawConfig → String → Except String String
  resolveStateDir : Except String String

/-- The workspace-resolution steps of `bootstrapSession`: derive the
agent id from the session key, then the agent-scoped workspace when a
config is present, else `<state-dir>/workspace`. -/
def resolveWorkspace (env : HookEnv) (cfg : Option OpenClawConfig)
    (sessionKey : String) : Except String String := do
  let agentId ← env.resolveAgentIdFromSessionKey sessionKey
  match cfg with
  | some c => env.resolveAgentWorkspaceDir c agentId
  | none => do
      let sd ← env.resolveStateDir
      pure (pathJoin sd "workspace")

/-- The handler `bootstrapSession`. Returns the (possibly updated)
event — always `Except.ok`, since the `try/catch` swallows every
failure — together with the effect trace. The admission check rejects
non-bootstrap events before any effect. On a caught failure the event
is returned unchanged (the context writes sit after the last throw
point in the source). -/
def bootstrapSession (env : HookEnv) (event : HookEvent) :
    Except String HookEvent × List HookEffect :=
  if event.type ≠ "agent" ∨ event.action ≠ "bootstrap" then
    (Except.ok event, [])
  else
    let dbg := HookEffect.logDebug "Session bootstrap: Loading memory context"
    let context := event.context.getD {}
    match resolveWorkspace env context.cfg event.sessionKey with
    | Except.error e =>
      (Except.ok event,
       [dbg, HookEffect.logError ("Failed to bootstrap session memory: " ++ e)])
    | Except.ok workspaceDir =>
      let memoryDir := pathJoin workspaceDir "memory"
      let rm := getRecentMemories env.fs memoryDir 3
      let up := getUserProfile env.fs workspaceDir
      let ac := getActiveContext env.fs workspaceDir
      let fullContext := buildContext up.1 ac.1 rm.1
      let context' : HookCtx :=
        { context with memoryContext := some fullContext, hasMemory := some true }
      let event' := match event.context with
        | some _ => { event with context := some context' }
        | none => event
      (Except.ok event',
       dbg :: rm.2 ++ up.2 ++ ac.2 ++
         [HookEffect.logInfo "Session bootstrapped with memory context",
          HookEffect.logDebug "Memory context preview"])

/-- A file system with a single dated memory file `2024-03-15-b.md`
under `ws/memory`. -/
def fsOneDated : FileSys :=
  { readdir := fun p => if p = "ws/memory" then some ["2024-03-15-b.md"] else none,
    readFile := fun p =>
      if p = "ws/memory/2024-03-15-b.md" then some "hello" else none }

/-- A file system on which every call throws (no memory directory). -/
def fsAllFail : FileSys :=
  { readdir := fun _ => none, readFile := fun _ => none }

/-- Profile and active context readable, but the one selected dated
file unreadable. -/
def fsBadDated : FileSys :=
  { readdir := fun p => if p = "ws/memory" then some ["2024-01-01-a.md"] else none,
    readFile := fun p =>
      if p = "ws/memory/jeeves-profile.md" then some "profile text"
      else if p = "ws/memory/active-context.md" then some "active text"
      else none }

/-- Collaborators that resolve successfully over a given file system. -/
def envWith (fs : FileSys) : HookEnv :=
  { fs := fs,
    resolveAgentIdFromSessionKey := fun _ => Except.ok "agent",
    resolveAgentWorkspaceDir := fun _ _ => Except.ok "ws",
    resolveStateDir := Except.ok "st" }

/-- Collaborators whose session-key resolver throws. -/
def envResolverThrows : HookEnv :=
  { fs := fsAllFail,
    resolveAgentIdFromSessionKey := fun _ => Except.error "boom",
    resolveAgentWorkspaceDir := fun _ _ => Except.ok "ws",
    resolveStateDir := Except.ok "st" }

/-- An admitted bootstrap event carrying a config in its context. -/
def evBootstrap : HookEvent :=
  { type := "agent", action := "bootstrap", sessionKey := "k",
    context := some { cfg := some {} } }

/-- An admitted bootstrap event whose context attribute is null. -/
def evNullCtx : HookEvent :=
  { type := "agent", action := "bootstrap", sessionKey := "k", context := none }

/-- An event this hook must ignore. -/
def evOther : HookEvent :=
  { type := "message", action := "received", sessionKey := "k",
    context := some {} }

/-- A sample memory entry. -/
def memSample : MemoryEntry :=
  { date := "2024", content := "note body", filename := "2024-01-01-a.md" }

/-- A 1500-character profile content. -/
def profile1500 : String := String.mk (List.replicate 1500 'x')

/-- `charListLe` is total. -/
theorem charListLe_total : ∀ l1 l2 : List Char,
    charListLe l1 l2 = true ∨ charListLe l2 l1 = true := by
  intro l1
  induction l1 with
  | nil => intro l2; left; rfl
  | cons a as ih =>
    intro l2
    cases l2 with
    | nil => right; rfl
    | cons b bs =>
      simp only [charListLe]
      rcases Nat.lt_trichotomy a.toNat b.toNat with h | h | h
      · left; simp [h]
      · rcases ih bs with h' | h' <;>
          [left; right] <;> simp [h, Nat.lt_irrefl, h']
      · right; simp [h]

/-- `charListLe` is transitive. -/
theorem charListLe_trans : ∀ l1 l2 l3 : List Char,
    charListLe l1 l2 = true → charListLe l2 l3 = true →
    charListLe l1 l3 = true := by
  intro l1
  induction l1 with
  | nil => intro l2 l3 _ _; rfl
  | cons a as ih =>
    intro l2 l3 h12 h23
    cases l2 with
    | nil => simp [charListLe] at h12
    | cons b bs =>
      cases l3 with
      | nil => simp [charListLe] at h23
      | cons c cs =>
        simp only [charListLe] at h12 h23 ⊢
        by_cases hab : a.toNat < b.toNat
        · by_cases hbc : b.toNat < c.toNat
          · simp [Nat.lt_trans hab hbc]
          · by_cases hcb : c.toNat < b.toNat
            · simp [hbc, hcb] at h23
            · have hbceq : b.toNat = c.toNat := by omega
              simp [hbceq ▸ hab]
        · by_cases hba : b.toNat < a.toNat
          · simp [hab, hba] at h12
          · have habeq : a.toNat = b.toNat := by omega
            simp [hab, hba] at h12
            by_cases hbc : b.toNat < c.toNat
            · simp [habeq ▸ hbc]
            · by_cases hcb : c.toNat < b.toNat
              · simp [hbc, hcb] at h23
              · simp [hbc, hcb] at h23
                have h1 : ¬ a.toNat < c.toNat := by omega
                have h2 : ¬ c.toNat < a.toNat := by omega
                simp [h1, h2]
                exact ih bs cs h12 h23

/-- `strLe` is total. -/
theorem strLe_total (a b : String) : strLe a b = true ∨ strLe b a = true :=
  charListLe_total a.data b.data

/-- `strLe` is transitive. -/
theorem strLe_trans {a b c : String} (h1 : strLe a b = true)
    (h2 : strLe b c = true) : strLe a c = true :=
  charListLe_trans a.data b.data c.data h1 h2

/-- Inserting permutes with consing. -/
theorem insertSorted_perm (a : String) (l : List String) :
    (insertSorted a l).Perm (a :: l) := by
  induction l with
  | nil => simp [insertSorted]
  | cons b bs ih =>
    simp only [insertSorted]
    split
    · exact List.Perm.refl _
    · exact List.Perm.trans (List.Perm.cons b ih) (List.Perm.swap a b bs)

/-- Membership after insertion. -/
theorem mem_insertSorted {x a : String} {l : List String} :
    x ∈ insertSorted a l ↔ x = a ∨ x ∈ l := by
  rw [(insertSorted_perm a l).mem_iff]
  simp

/-- Insertion preserves ascending `strLe` order. -/
theorem pairwise_insertSorted (a : String) (l : List String)
    (h : l.Pairwise (fun x y => strLe x y = true)) :
    (insertSorted a l).Pairwise (fun x y => strLe x y = true) := by
  induction l with
  | nil => simp [insertSorted]
  | cons b bs ih =>
    rw [List.pairwise_cons] at h
    obtain ⟨hb, hbs⟩ := h
    simp only [insertSorted]
    split
    · rename_i hab
      rw [List.pairwise_cons]
      refine ⟨?_, List.pairwise_cons.2 ⟨hb, hbs⟩⟩
      intro y hy
      rcases hy with _ | hy
      · exact hab
      · exact strLe_trans hab (hb y (by assumption))
    · rename_i hab
      have hba : strLe b a = true := by
        rcases strLe_total a b with h' | h'
        · exact absurd h' hab
        · exact h'
      rw [List.pairwise_cons]
      refine ⟨?_, ih hbs⟩
      intro y hy
      rcases mem_insertSorted.1 hy with rfl | hy
      · exact hba
      · exact hb y hy

/-- The sort permutes its input. -/
theorem sortStrings_perm (l : List String) : (sortStrings l).Perm l := by
  induction l with
  | nil => simp [sortStrings]
  | cons a as ih =>
    have : sortStrings (a :: as) = insertSorted a (sortStrings as) := rfl
    rw [this]
    exact List.Perm.trans (insertSorted_perm a (sortStrings as)) (List.Perm.cons a ih)

/-- The sort is ascending in `strLe`. -/
theorem sortStrings_pairwise (l : List String) :
    (sortStrings l).Pairwise (fun x y => strLe x y = true) := by
  induction l with
  | nil => simp [sortStrings]
  | cons a as ih =>
    have : sortStrings (a :: as) = insertSorted a (sortStrings as) := rfl
    rw [this]
    exact pairwise_insertSorted a (sortStrings as) ih

/-- Every selected name passed the filter and came from the listing. -/
theorem selectRecentFiles_mem_keep {files : List String} {count : Nat}
    {f : String} (h : f ∈ selectRecentFiles files count) :
    keepFile f = true ∧ f ∈ files := by
  unfold selectRecentFiles at h
  have h1 : f ∈ (sortStrings (files.filter keepFile)).reverse :=
    List.mem_of_mem_take h
  rw [List.mem_reverse] at h1
  have h2 : f ∈ files.filter keepFile :=
    (sortStrings_perm (files.filter keepFile)).mem_iff.1 h1
  exact ⟨(List.mem_filter.1 h2).2, (List.mem_filter.1 h2).1⟩

/-- The selection keeps at most `count` names. -/
theorem selectRecentFiles_length_le (files : List String) (count : Nat) :
    (selectRecentFiles files count).length ≤ count := by
  unfold selectRecentFiles
  exact List.length_take_le count _

/-- The selection is descending in `strLe`. -/
theorem selectRecentFiles_pairwise (files : List String) (count : Nat) :
    (selectRecentFiles files count).Pairwise (fun x y => strLe y x = true) := by
  unfold selectRecentFiles
  refine List.Pairwise.sublist (List.take_sublist _ _) ?_
  rw [List.pairwise_reverse]
  exact sortStrings_pairwise (files.filter keepFile)

/-- When every matching name fits in `count`, the selection is a
permutation of the filtered listing. -/
theorem selectRecentFiles_perm {files : List String} {count : Nat}
    (h : (files.filter keepFile).length ≤ count) :
    (selectRecentFiles files count).Perm (files.filter keepFile) := by
  unfold selectRecentFiles
  have hlen : (sortStrings (files.filter keepFile)).reverse.length ≤ count := by
    rw [List.length_reverse,
      (sortStrings_perm (files.filter keepFile)).length_eq]
    exact h
  rw [List.take_of_length_le hlen]
  exact List.reverse_perm _ |>.trans (sortStrings_perm _)

/-- On success the loop returns one entry per selected name, in order. -/
theorem readMemoriesLoop_filenames (fs : FileSys) (dir : String) :
    ∀ (l : List String) (ms : List MemoryEntry),
    (readMemoriesLoop fs dir l).1 = some ms →
    ms.map (fun m => m.filename) = l := by
  intro l
  induction l with
  | nil =>
    intro ms h
    simp only [readMemoriesLoop] at h
    cases h
    rfl
  | cons f rest ih =>
    intro ms h
    simp only [readMemoriesLoop] at h
    cases hr : fs.readFile (pathJoin dir f) with
    | none => rw [hr] at h; simp at h
    | some content =>
      rw [hr] at h
      simp only at h
      cases hprev : (readMemoriesLoop fs dir rest).1 with
      | none => rw [hprev] at h; simp at h
      | some ms' =>
        rw [hprev] at h
        simp only [Option.map_some'] at h
        cases h
        simp [ih ms' hprev]

/-- Every entry the loop returns carries the date derived from its own
filename (the part before the first dash). -/
theorem readMemoriesLoop_date_eq (fs : FileSys) (dir : String) :
    ∀ (l : List String) (ms : List MemoryEntry) (m : MemoryEntry),
    (readMemoriesLoop fs dir l).1 = some ms → m ∈ ms →
    m.date = dateOfFilename m.filename := by
  intro l
  induction l with
  | nil =>
    intro ms m h hm
    simp only [readMemoriesLoop] at h
    cases h
    simp at hm
  | cons f rest ih =>
    intro ms m h hm
    simp only [readMemoriesLoop] at h
    cases hr : fs.readFile (pathJoin dir f) with
    | none => rw [hr] at h; simp at h
    | some content =>
      rw [hr] at h
      simp only at h
      cases hprev : (readMemoriesLoop fs dir rest).1 with
      | none => rw [hprev] at h; simp at h
      | some ms' =>
        rw [hprev] at h
        simp only [Option.map_some'] at h
        cases h
        cases hm with
        | head => rfl
        | tail _ hm => exact ih ms' m hprev hm

/-- A failing read of any selected name makes the whole loop fail. -/
theorem readMemoriesLoop_fail (fs : FileSys) (dir : String) :
    ∀ (l : List String) (f : String), f ∈ l →
    fs.readFile (pathJoin dir f) = none →
    (readMemoriesLoop fs dir l).1 = none := by
  intro l
  induction l with
  | nil => intro f h; simp at h
  | cons g rest ih =>
    intro f hf hnone
    cases hf with
    | head =>
      simp only [readMemoriesLoop]
      rw [hnone]
    | tail _ hf =>
      simp only [readMemoriesLoop]
      cases hr : fs.readFile (pathJoin dir g) with
      | none => simp
      | some content => simp [ih f hf hnone]

/-- Every entry `getRecentMemories` returns carries the date derived
from its filename. -/
theorem getRecentMemories_date_eq {fs : FileSys} {dir : String}
    {count : Nat} {m : MemoryEntry}
    (hm : m ∈ (getRecentMemories fs dir count).1) :
    m.date = dateOfFilename m.filename := by
  unfold getRecentMemories at hm
  cases hd : fs.readdir dir with
  | none => rw [hd] at hm; simp at hm
  | some files =>
    rw [hd] at hm
    simp only at hm
    cases hloop : (readMemoriesLoop fs dir (selectRecentFiles files count)).1 with
    | none => rw [hloop] at hm; simp at hm
    | some ms =>
      rw [hloop] at hm
      exact readMemoriesLoop_date_eq fs dir _ ms m hloop hm

/-- The parts array is the three sections in their fixed order. -/
theorem buildContextParts_sections (up ac : Option String)
    (mems : List MemoryEntry) :
    buildContextParts up ac mems
      = profileSection up ++ activeSection ac ++ recentSection mems := by
  unfold buildContextParts profileSection activeSection recentSection
  split <;> split <;> split <;> simp

/-- A nonempty string has positive length. -/
theorem strLength_pos {x : String} (hx : x ≠ "") : 0 < x.length := by
  cases x with
  | mk data =>
    cases data with
    | nil => exact absurd rfl hx
    | cons c cs => simp [String.length]

/-- Joining a list whose head is nonempty yields a nonempty string. -/
theorem joinParts_ne_empty {x : String} (xs : List String) (hx : x ≠ "") :
    joinParts (x :: xs) ≠ "" := by
  cases xs with
  | nil => simpa [joinParts]
  | cons y ys =>
    simp only [joinParts]
    intro h
    have hlen := congrArg String.length h
    rw [String.length_append, String.length_append] at hlen
    have hx' := strLength_pos hx
    simp at hlen
    omega

/-- C8: for every event with type not "agent" or action not
"bootstrap", the handler returns immediately: no file-system access, no
log record, and the event (hence its context) entirely unmodified. -/
theorem non_bootstrap_no_effects (env : HookEnv) (event : HookEvent)
    (h : event.type ≠ "agent" ∨ event.action ≠ "bootstrap") :
    bootstrapSession env event = (Except.ok event, []) := by
  unfold bootstrapSession
  rw [if_pos h]

/-- Witness for C8 at a concrete non-bootstrap event. -/
theorem non_bootstrap_no_effects_witness :
    bootstrapSession (envWith fsAllFail) evOther = (Except.ok evOther, []) :=
  non_bootstrap_no_effects (envWith fsAllFail) evOther (by decide)

/-- C10: for an admitted bootstrap event whose context attribute is
null, the handler completes without error and the event is returned
entirely unchanged (the writes land in a fresh local object). -/
theorem null_context_event_unchanged (env : HookEnv) (event : HookEvent)
    (h1 : event.type = "agent") (h2 : event.action = "bootstrap")
    (hc : event.context = none) :
    (bootstrapSession env event).1 = Except.ok event := by
  simp only [bootstrapSession, h1, h2]
  rw [if_neg (by simp)]
  cases hres : resolveWorkspace env ((event.context.getD {}).cfg) event.sessionKey with
  | error e => rfl
  | ok w => simp [hc]

/-- Witness for C10 at a concrete event with a null context. -/
theorem null_context_event_unchanged_witness :
    (bootstrapSession (envWith fsAllFail) evNullCtx).1 = Except.ok evNullCtx :=
  null_context_event_unchanged (envWith fsAllFail) evNullCtx rfl rfl rfl

/-- C1: for every admitted bootstrap event and every behaviour of the
resolvers and the file system (including any of them throwing), the
handler returns `ok` — it never raises — and when the resolution steps
inside the `try` throw, the event is returned unchanged (the context
writes sit after the last throw point). -/
theorem bootstrap_never_raises (env : HookEnv) (event : HookEvent)
    (h1 : event.type = "agent") (h2 : event.action = "bootstrap") :
    (bootstrapSession env event).1.isOk = true ∧
    (∀ e, resolveWorkspace env ((event.context.getD {}).cfg) event.sessionKey
        = Except.error e →
      (bootstrapSession env event).1 = Except.ok event) := by
  simp only [bootstrapSession, h1, h2]
  rw [if_neg (by simp)]
  constructor
  · cases hres : resolveWorkspace env ((event.context.getD {}).cfg) event.sessionKey with
    | error e => rfl
    | ok w => rfl
  · intro e he
    rw [he]

/-- Witness for C1: a run over a throwing file system is `ok`, and a
run whose resolver throws returns the event unchanged. -/
theorem bootstrap_never_raises_witness :
    ((bootstrapSession (envWith fsAllFail) evBootstrap).1.isOk = true) ∧
    (bootstrapSession envResolverThrows evNullCtx).1 = Except.ok evNullCtx :=
  ⟨(bootstrap_never_raises (envWith fsAllFail) evBootstrap rfl rfl).1,
   (bootstrap_never_raises envResolverThrows evNullCtx rfl rfl).2 "boom" rfl⟩

/-- C2: the recent-memory selection keeps exactly the dated `.md`
names, sorted lexicographically descending, at most `count` of them
(a permutation of the whole filtered listing when it fits), and on the
spec's concrete directory returns the three dated files in descending
order, excluding `notes.txt`. -/
theorem recent_selection_correct :
    (selectRecentFiles
        ["2024-01-01-a.md", "2024-03-15-b.md", "2024-02-10-c.md", "notes.txt"] 3
      = ["2024-03-15-b.md", "2024-02-10-c.md", "2024-01-01-a.md"]) ∧
    (∀ (files : List String) (count : Nat),
      (∀ f ∈ selectRecentFiles files count, keepFile f = true ∧ f ∈ files) ∧
      (selectRecentFiles files count).length ≤ count ∧
      (selectRecentFiles files count).Pairwise (fun a b => strLe b a = true) ∧
      ((files.filter keepFile).length ≤ count →
        (selectRecentFiles files count).Perm (files.filter keepFile))) := by
  refine ⟨by decide, ?_⟩
  intro files count
  exact ⟨fun f hf => selectRecentFiles_mem_keep hf,
    selectRecentFiles_length_le files count,
    selectRecentFiles_pairwise files count,
    fun h => selectRecentFiles_perm h⟩

/-- Witness for C2: a selected name passed the filter and came from the
listing. -/
theorem recent_selection_correct_witness :
    keepFile "2024-03-15-b.md" = true ∧
    "2024-03-15-b.md" ∈
      ["2024-01-01-a.md", "2024-03-15-b.md", "2024-02-10-c.md", "notes.txt"] :=
  (recent_selection_correct.2
      ["2024-01-01-a.md", "2024-03-15-b.md", "2024-02-10-c.md", "notes.txt"] 3).1
    "2024-03-15-b.md" (by decide)

/-- C3 counterexample: for the file `2024-03-15-b.md` the computed
`date` is `"2024"`, not the full ten-character `"2024-03-15"` prefix
the claim states. -/
theorem memory_date_counterexample :
    (getRecentMemories fsOneDated "ws/memory" 3).1
      = [{ date := "2024", content := "hello", filename := "2024-03-15-b.md" }] ∧
    jsSlice "2024-03-15-b.md" 10 = "2024-03-15" ∧
    ("2024" : String) ≠ "2024-03-15" := by decide

/-- C3 as amended: the `date` attribute of every returned entry equals
the substring of its filename before the first dash (for the dated
names this hook selects, the four-digit year). -/
theorem memory_date_first_component (fs : FileSys) (dir : String)
    (count : Nat) (m : MemoryEntry)
    (hm : m ∈ (getRecentMemories fs dir count).1) :
    m.date = dateOfFilename m.filename :=
  getRecentMemories_date_eq hm

/-- Witness for the amended C3 at the concrete one-file directory. -/
theorem memory_date_first_component_witness :
    ({ date := "2024", content := "hello",
       filename := "2024-03-15-b.md" } : MemoryEntry).date
      = dateOfFilename "2024-03-15-b.md" :=
  memory_date_first_component fsOneDated "ws/memory" 3 _ (by decide)

/-- C4 counterexample: a profile read that succeeds with empty content
is "present" in the claim's sense (not the absent sentinel), yet the
assembled block renders zero sections — the readable-but-empty file
does not yield its heading. -/
theorem empty_profile_counterexample :
    (some "" ≠ (none : Option String)) ∧
    buildContextParts (some "") none [] = [] ∧
    buildContext (some "") none [] = "" := by decide

/-- C4 as amended: a section appears if and only if its source is
truthy — the read succeeded and returned nonempty content (for recent
memories: the entry list is nonempty); an empty readable file counts as
absent. -/
theorem section_presence_truthy :
    (∀ (up ac : Option String) (mems : List MemoryEntry),
      buildContextParts up ac mems
        = profileSection up ++ activeSection ac ++ recentSection mems) ∧
    (∀ up : Option String, profileSection up ≠ [] ↔ strTruthy up = true) ∧
    (∀ ac : Option String, activeSection ac ≠ [] ↔ strTruthy ac = true) ∧
    (∀ mems : List MemoryEntry, recentSection mems ≠ [] ↔ mems ≠ []) ∧
    strTruthy (some "") = false := by
  refine ⟨buildContextParts_sections, ?_, ?_, ?_, rfl⟩
  · intro up; unfold profileSection; split <;> simp_all
  · intro ac; unfold activeSection; split <;> simp_all
  · intro mems
    unfold recentSection
    split <;> rename_i h
    · simp only [ne_eq, reduceCtorEq, not_false_iff, true_iff]
      exact List.ne_nil_of_length_pos h
    · simp only [List.length_pos, not_lt, Nat.le_zero, List.length_eq_zero] at h
      simp [h]

/-- Strings with equal character data are equal. -/
theorem strExt {a b : String} (h : a.data = b.data) : a = b := by
  cases a; cases b; exact congrArg String.mk h

/-- Appending strings appends their character data. -/
theorem strData_append (a b : String) : (a ++ b).data = a.data ++ b.data := rfl

/-- The fixture profile has 1500 characters. -/
theorem profile1500_length : profile1500.length = 1500 := by
  show (List.replicate 1500 'x').length = 1500
  rw [List.length_replicate]

/-- C5: profile and active-context content are truncated to their first
1000 characters and each memory entry's content to its first 500, by
plain character count; for a 1500-character profile the output holds
exactly its first 1000 characters and never more. -/
theorem truncation_bounds (p : String) (hp : p.length = 1500)
    (m : MemoryEntry) (mems : List MemoryEntry) (hm : m ∈ mems)
    (up ac : Option String) :
    buildContext (some p) none []
      = "## User Profile (Jeeves)" ++ "\n" ++ jsSlice p 1000 ++ "\n" ∧
    (jsSlice p 1000).length = 1000 ∧
    String.mk ((jsSlice p 1000).data ++ p.data.drop 1000) = p ∧
    (jsSlice (ac.getD "") 1000).length ≤ 1000 ∧
    jsSlice m.content 500 ∈ buildContextParts up ac mems ∧
    (jsSlice m.content 500).length ≤ 500 := by
  have hlen : p.data.length = 1500 := hp
  have hpne : p ≠ "" := by
    intro h
    rw [h] at hp
    exact absurd hp (by decide)
  refine ⟨?_, ?_, ?_, ?_, ?_, ?_⟩
  · apply strExt
    simp [buildContext, buildContextParts, strTruthy, hpne, joinParts,
      strData_append]
  · have h : (jsSlice p 1000).length = (p.data.take 1000).length := rfl
    rw [h, List.length_take, hlen]
    omega
  · exact strExt (List.take_append_drop 1000 p.data)
  · have h : (jsSlice (ac.getD "") 1000).length
        = ((ac.getD "").data.take 1000).length := rfl
    rw [h, List.length_take]
    omega
  · rw [buildContextParts_sections]
    refine List.mem_append_right _ ?_
    unfold recentSection
    rw [if_pos (List.length_pos.2 (List.ne_nil_of_mem hm))]
    exact List.mem_cons.2 (Or.inr (List.mem_flatMap.2
      ⟨m, hm, by simp [entryParts]⟩))
  · have h : (jsSlice m.content 500).length
        = (m.content.data.take 500).length := rfl
    rw [h, List.length_take]
    omega

/-- Witness for C5 at a concrete 1500-character profile. -/
theorem truncation_bounds_witness :
    buildContext (some profile1500) none []
      = "## User Profile (Jeeves)" ++ "\n" ++ jsSlice profile1500 1000 ++ "\n" ∧
    (jsSlice profile1500 1000).length = 1000 :=
  ⟨(truncation_bounds profile1500 profile1500_length
      memSample [memSample] (by simp) none none).1,
   (truncation_bounds profile1500 profile1500_length
      memSample [memSample] (by simp) none none).2.1⟩

/-- C6: with a workspace whose memory directory does not exist (every
read throws), an admitted bootstrap event completes without throwing,
with `hasMemory = true` and `memoryContext = ""` written into its
context and nothing else changed. -/
theorem missing_memory_dir_defaults (env : HookEnv) (event : HookEvent)
    (c : HookCtx) (w : String)
    (h1 : event.type = "agent") (h2 : event.action = "bootstrap")
    (hc : event.context = some c)
    (hw : resolveWorkspace env c.cfg event.sessionKey = Except.ok w)
    (hrd : ∀ q, env.fs.readdir q = none)
    (hrf : ∀ q, env.fs.readFile q = none) :
    (bootstrapSession env event).1
      = Except.ok { event with context := some { c with memoryContext := some "", hasMemory := some true } } := by
  simp only [bootstrapSession, h1, h2, hc, Option.getD_some]
  rw [if_neg (by simp)]
  rw [hw]
  simp [getRecentMemories, getUserProfile, getActiveContext, hrd, hrf,
    buildContext, buildContextParts, strTruthy, joinParts]

/-- Witness for C6 over an always-throwing file system. -/
theorem missing_memory_dir_defaults_witness :
    (bootstrapSession (envWith fsAllFail) evBootstrap).1
      = Except.ok { evBootstrap with context := some { cfg := some {}, memoryContext := some "", hasMemory := some true } } :=
  missing_memory_dir_defaults (envWith fsAllFail) evBootstrap
    { cfg := some {} } "ws" rfl rfl rfl rfl (fun _ => rfl) (fun _ => rfl)

/-- C7: the three reads are failure-independent. A failing read of any
selected dated file empties the recent-memory result set, and with a
readable nonempty profile the handler still publishes a nonempty
`memoryContext` assembled from the readable sources — the failure does
not abort assembly. -/
theorem reads_failure_independent :
    (∀ (fs : FileSys) (dir : String) (count : Nat) (files : List String)
        (f : String),
      fs.readdir dir = some files → f ∈ selectRecentFiles files count →
      fs.readFile (pathJoin dir f) = none →
      (getRecentMemories fs dir count).1 = []) ∧
    (∀ (env : HookEnv) (event : HookEvent) (c : HookCtx) (w p : String),
      event.type = "agent" → event.action = "bootstrap" →
      event.context = some c →
      resolveWorkspace env c.cfg event.sessionKey = Except.ok w →
      env.fs.readFile (pathJoin (pathJoin w "memory") "jeeves-profile.md")
        = some p →
      p ≠ "" →
      ((bootstrapSession env event).1 = Except.ok { event with context := some { c with memoryContext := some (buildContext (some p) (env.fs.readFile (pathJoin (pathJoin w "memory") "active-context.md")) (getRecentMemories env.fs (pathJoin w "memory") 3).1), hasMemory := some true } } ∧
        buildContext (some p)
          (env.fs.readFile (pathJoin (pathJoin w "memory") "active-context.md"))
          (getRecentMemories env.fs (pathJoin w "memory") 3).1 ≠ "")) := by
  constructor
  · intro fs dir count files f hdir hsel hnone
    unfold getRecentMemories
    rw [hdir]
    simp [readMemoriesLoop_fail fs dir _ f hsel hnone]
  · intro env event c w p h1 h2 hc hw hp hpne
    have hparts : ∀ (acr : Option String) (mems : List MemoryEntry),
        buildContextParts (some p) acr mems
          = "## User Profile (Jeeves)" :: jsSlice p 1000 :: "" ::
              (activeSection acr ++ recentSection mems) := by
      intro acr mems
      rw [buildContextParts_sections]
      simp [profileSection, strTruthy, hpne]
    constructor
    · simp only [bootstrapSession, h1, h2, hc, Option.getD_some]
      rw [if_neg (by simp)]
      rw [hw]
      simp only [getUserProfile, getActiveContext, hp]
    · unfold buildContext
      rw [hparts]
      exact joinParts_ne_empty _ (by decide)

/-- Witness for C7: over `fsBadDated` the dated file is unreadable yet
the handler publishes a nonempty context from the readable profile and
active context. -/
theorem reads_failure_independent_witness :
    (getRecentMemories fsBadDated "ws/memory" 3).1 = [] ∧
    buildContext (some "profile text")
      (fsBadDated.readFile (pathJoin (pathJoin "ws" "memory") "active-context.md"))
      (getRecentMemories fsBadDated "ws/memory" 3).1 ≠ "" :=
  ⟨reads_failure_independent.1 fsBadDated "ws/memory" 3 ["2024-01-01-a.md"]
      "2024-01-01-a.md" rfl (by decide) rfl,
   ((reads_failure_independent.2 (envWith fsBadDated) evBootstrap
      { cfg := some {} } "ws" "profile text" rfl rfl rfl rfl rfl
      (by decide)).2)⟩

/-- C9: sections always appear in the fixed order profile, active
context, recent memories; the recent entries follow the selection
order, which is descending (most recent first) on filenames. -/
theorem section_order_fixed :
    (∀ (up ac : Option String) (mems : List MemoryEntry),
      buildContextParts up ac mems
        = profileSection up ++ activeSection ac ++ recentSection mems) ∧
    (∀ mems : List MemoryEntry, mems ≠ [] →
      recentSection mems
        = "## Recent Conversations" :: mems.flatMap entryParts) ∧
    (∀ (fs : FileSys) (dir : String) (count : Nat),
      ((getRecentMemories fs dir count).1.map (fun m => m.filename)).Pairwise
        (fun a b => strLe b a = true)) := by
  refine ⟨buildContextParts_sections, ?_, ?_⟩
  · intro mems hne
    unfold recentSection
    rw [if_pos (List.length_pos.2 hne)]
  · intro fs dir count
    unfold getRecentMemories
    cases hd : fs.readdir dir with
    | none => simp
    | some files =>
      simp only
      cases hloop : (readMemoriesLoop fs dir (selectRecentFiles files count)).1 with
      | none => simp [hloop]
      | some ms =>
        simp only [hloop, Option.getD_some]
        rw [readMemoriesLoop_filenames fs dir _ ms hloop]
        exact selectRecentFiles_pairwise files count

/-- Witness for C9: the recent section of a singleton entry list. -/
theorem section_order_fixed_witness :
    recentSection [memSample]
      = "## Recent Conversations" :: [memSample].flatMap entryParts :=
  section_order_fixed.2.1 [memSample] (by simp)
